import Mathlib

/-!
Verification of the Approval Automation Scheduler of the staff-scheduling
web backend (source: `app.py`, `models.py`).

Shallow embedding conventions:

* An instant (Python naive `datetime`) is a `Nat`: the number of seconds
  since the epoch 1970-01-01 00:00.  Python's naive datetimes carry no
  time zone, so `datetime.combine`, `timedelta` arithmetic and comparison
  are plain linear arithmetic on this count.
* A calendar date (Python `date`) is a `Nat`: the number of days since
  1970-01-01.  `dt.date()` is division by `secPerDay`;
  `date.weekday()` (Monday = 0) is `(d + 3) % 7` because 1970-01-01 was a
  Thursday (weekday 3).
* A time-of-day (Python `time`) is a `Nat` strictly below `secPerDay`.
  A Python `time` object is always truthy, so the source's
  `if not run_time_value` test is a `none` test on `Option Nat`.
* `datetime.now()` readings are passed in explicitly (`wallClockNow`,
  `ExecEnv.now`), so the hidden clock becomes a visible input.
-/

namespace Jester

def secPerDay : Nat := 86400

/-- `dt.date()` as a day index: seconds since epoch to days since epoch. -/
def dateOf (t : Nat) : Nat := t / secPerDay

/-- `date.weekday()` for a day index (Monday = 0; 1970-01-01 is Thursday). -/
def weekdayOf (d : Nat) : Nat := (d + 3) % 7

/-- `datetime.combine(date, time)`. -/
def combine (d : Nat) (timeOfDay : Nat) : Nat := d * secPerDay + timeOfDay

/-- Digits of a Python integer literal after the first digit: decimal digits
with single underscores allowed between digits (`int("1_0") == 10`). -/
def pyDigitsCore : List Char → Nat → Option Nat
  | [], acc => some acc
  | '_' :: c :: rest, acc =>
      if c.isDigit then pyDigitsCore rest (10 * acc + (c.toNat - 48)) else none
  | ['_'], _ => none
  | c :: rest, acc =>
      if c.isDigit then pyDigitsCore rest (10 * acc + (c.toNat - 48)) else none

/-- A nonempty digit string (first char must be a digit, not an underscore). -/
def pyDigits : List Char → Option Nat
  | [] => none
  | c :: rest => if c.isDigit then pyDigitsCore rest (c.toNat - 48) else none

/-- Python `int(entry)` on an already-stripped character sequence: optional
sign, then decimal digits.  A failure models Python raising `ValueError`. -/
def pyInt (cs : List Char) : Option Int :=
  match cs with
  | '-' :: rest => (pyDigits rest).map (fun n => -(n : Int))
  | '+' :: rest => (pyDigits rest).map (fun n => (n : Int))
  | other => (pyDigits other).map (fun n => (n : Int))

/-- The whitespace set of Python `str.strip()` (ASCII portion). -/
def pyIsSpace (c : Char) : Bool :=
  c = ' ' || c = '\t' || c = '\n' || c = '\r' || c = '\x0b' || c = '\x0c'

/-- Python `entry.strip()` on a character sequence. -/
def pyStrip (cs : List Char) : List Char :=
  ((cs.dropWhile pyIsSpace).reverse.dropWhile pyIsSpace).reverse

/-- Python `days.split(",")` on a character sequence: `split` on a one-char
separator keeps empty fields, and the empty input yields one empty field. -/
def splitOnComma : List Char → List (List Char)
  | [] => [[]]
  | c :: rest =>
    if c = ',' then [] :: splitOnComma rest
    else
      match splitOnComma rest with
      | [] => [[c]]
      | field :: fields => (c :: field) :: fields

/-- `parsed.add(day)` on the Python `set`, modelled as a duplicate-free
list. -/
def insertSet (x : Nat) (l : List Nat) : List Nat := if x ∈ l then l else x :: l

def insertSorted (x : Nat) : List Nat → List Nat
  | [] => [x]
  | y :: ys => if x ≤ y then x :: y :: ys else y :: insertSorted x ys

/-- Python `sorted(...)` on the collected set. -/
def sortNat (l : List Nat) : List Nat := l.foldr insertSorted []

/-- One entry of the `for entry in days.split(",")` loop of
`_parse_days_of_week`: strip, skip empties, parse, keep ints in `0..6`. -/
def parseEntryFold (acc : List Nat) (entry : List Char) : List Nat :=
  let e := pyStrip entry
  if e = [] then acc
  else
    match pyInt e with
    | none => acc
    | some day => if 0 ≤ day ∧ day ≤ 6 then insertSet day.toNat acc else acc

/-- `_parse_days_of_week`: comma-separated weekday list to sorted unique
integers, keeping only entries parsing to an int in `0..6`. -/
def parseDaysOfWeek (days : Option String) : List Nat :=
  match days with
  | none => []
  | some s =>
    if s = "" then []
    else
      let parsed : List Nat := (splitOnComma s.data).foldl parseEntryFold []
      sortNat parsed

/-- The `for delta in range(0, 8)` scan of the `weekly` branch of
`_calculate_next_run`, over an explicit list of day offsets. -/
def scanDeltas (reference run_time : Nat) (allowed_days : List Nat) : List Nat → Option Nat
  | [] => none
  | delta :: rest =>
    let candidate_date := dateOf reference + delta
    let candidate_dt := combine candidate_date run_time
    if candidate_dt ≤ reference then scanDeltas reference run_time allowed_days rest
    else if weekdayOf candidate_date ∈ allowed_days then some candidate_dt
    else scanDeltas reference run_time allowed_days rest

def weeklyScan (reference run_time : Nat) (allowed_days : List Nat) : Option Nat :=
  scanDeltas reference run_time allowed_days (List.range 8)

/-- The fallback after the loop: nearest matching weekday strictly ahead
(`((day - weekday) % 7) or 7`).  Python's `min` raises on an empty list;
`allowed_days` is never empty at this point, `getD` only totalizes. -/
def weeklyFallback (reference run_time : Nat) (allowed_days : List Nat) : Nat :=
  let weekday := weekdayOf (dateOf reference)
  let offsets := allowed_days.map
    (fun day =>
      let o := (((day : Int) - (weekday : Int)) % 7).toNat
      if o = 0 then 7 else o)
  let candidate_date := dateOf reference + (offsets.min?.getD 7)
  combine candidate_date run_time

/-- `_calculate_next_run`.  `wallClockNow` models the `datetime.now()` read
when no `reference` is supplied. -/
def calculateNextRun (wallClockNow : Nat) (schedule_type : String)
    (run_time_value : Option Nat) (days : Option String)
    (reference? : Option Nat) : Option Nat :=
  if schedule_type = "once" then none
  else
    let reference := reference?.getD wallClockNow
    match run_time_value with
    | none => none
    | some run_time =>
      if schedule_type = "daily" then
        let candidate := combine (dateOf reference) run_time
        if candidate ≤ reference then some (candidate + secPerDay) else some candidate
      else if schedule_type = "weekly" then
        let parsed := parseDaysOfWeek days
        let allowed_days := if parsed = [] then List.range 7 else parsed
        match weeklyScan reference run_time allowed_days with
        | some candidate_dt => some candidate_dt
        | none => some (weeklyFallback reference run_time allowed_days)
      else none

/-- Proleptic-Gregorian conversion of a day index since 1970-01-01 to
`(year, month, day)`; used for Python's `dt.year` / `dt.month`. -/
def civilFromDays (z0 : Nat) : Nat × Nat × Nat :=
  let z := z0 + 719468
  let era := z / 146097
  let doe := z % 146097
  let yoe := (doe - doe / 1460 + doe / 36524 - doe / 146096) / 365
  let y := yoe + era * 400
  let doy := doe - (365 * yoe + yoe / 4 - yoe / 100)
  let mp := (5 * doy + 2) / 153
  let d := doy - (153 * mp + 2) / 5 + 1
  let m := if mp < 10 then mp + 3 else mp - 9
  (if m ≤ 2 then y + 1 else y, m, d)

def yearOf (t : Nat) : Nat := (civilFromDays (dateOf t)).1

def monthOf (t : Nat) : Nat := (civilFromDays (dateOf t)).2.1

def pad2 (n : Nat) : String := if n < 10 then "0" ++ toString n else toString n

def pad4 (n : Nat) : String :=
  if n < 10 then "000" ++ toString n
  else if n < 100 then "00" ++ toString n
  else if n < 1000 then "0" ++ toString n
  else toString n

/-- A Python `date` value as stored on shift/leave records. -/
structure PyDate where
  year : Nat
  month : Nat
  day : Nat
deriving DecidableEq, Repr

/-- `date.strftime("%d.%m.%Y")`. -/
def fmtDate (d : PyDate) : String := pad2 d.day ++ "." ++ pad2 d.month ++ "." ++ pad4 d.year

structure Employee where
  id : Nat
  name : String
  is_admin : Bool
deriving DecidableEq, Repr

structure Shift where
  id : Nat
  employee_id : Nat
  employee : Employee
  date : PyDate
  approved : Bool
deriving DecidableEq, Repr

structure Leave where
  id : Nat
  employee_id : Nat
  employee : Employee
  leave_type : String
  start_date : PyDate
  end_date : PyDate
  approved : Bool
deriving DecidableEq, Repr

structure Notification where
  recipient_id : Nat
  message : String
  link : Option String
deriving DecidableEq, Repr

structure ApprovalAutomation where
  id : Nat
  name : String
  automation_type : String
  schedule_type : String
  run_time : Option Nat
  days_of_week : Option String
  target_position : Option String
  next_run : Option Nat
  last_run : Option Nat
  last_run_summary : Option String
  is_active : Bool
  updated_at : Option Nat
deriving DecidableEq, Repr

/-- The shared mutable store the scheduling core reads and writes. -/
structure DBState where
  employees : List Employee
  shifts : List Shift
  leaves : List Leave
  notifications : List Notification
  automations : List ApprovalAutomation
deriving DecidableEq, Repr

/-- Flask `url_for` for the endpoints the executor links to. -/
def urlForShiftRequestsOverview : String := "/einsatz/uebersicht"

def urlForLeaveRequests : String := "/abwesenheit/antraege"

def urlForLeaveForm : String := "/abwesenheit/antrag"

def urlForSystemSettings : String := "/settings"

def urlForSchedule (month year : Nat) : String :=
  "/dienstplan?month=" ++ toString month ++ "&year=" ++ toString year

/-- `_create_notification`: appends a notification, truncating message and
link to 255 characters; no-op on falsy recipient or message. -/
def createNotification (recipient_id : Nat) (message : String) (link : Option String)
    (db : DBState) : DBState :=
  if recipient_id = 0 ∨ message = "" then db
  else
    let trimmed_message := message.take 255
    let trimmed_link :=
      match link with
      | some l => if l = "" then none else some (l.take 255)
      | none => none
    { db with notifications := db.notifications ++ [⟨recipient_id, trimmed_message, trimmed_link⟩] }

/-- `_build_shift_request_message`. -/
def buildShiftRequestMessage (employee : Employee) (shift_date : PyDate) : String :=
  employee.name ++ " hat einen Einsatz am " ++ fmtDate shift_date ++ " eingereicht."

/-- The `date_range` rendering shared by the leave message builders. -/
def leaveDateRange (start_date end_date : PyDate) : String :=
  if start_date = end_date then fmtDate start_date
  else fmtDate start_date ++ " bis " ++ fmtDate end_date

/-- `_build_leave_request_message`. -/
def buildLeaveRequestMessage (employee : Employee) (leave_type : String)
    (start_date end_date : PyDate) : String :=
  employee.name ++ " hat " ++ leave_type ++ " für " ++ leaveDateRange start_date end_date
    ++ " beantragt."

/-- `_clear_request_notifications`: deletes every notification matching the
message, and also the link when one is given; no-op on an empty message. -/
def clearRequestNotifications (message : String) (link : Option String)
    (db : DBState) : DBState :=
  if message = "" then db
  else
    let isMatch := fun (n : Notification) =>
      n.message == message && (match link with
        | none => true
        | some l => n.link == some l)
    { db with notifications := db.notifications.filter (fun n => !(isMatch n)) }

/-- `notify_employee`. -/
def notifyEmployee (employee_id : Nat) (message : String) (link : Option String)
    (db : DBState) : DBState :=
  if employee_id = 0 then db
  else createNotification employee_id message link db

/-- Ambient inputs of one automation run: the `datetime.now()` reading, the
failure behaviour of the collaborator operations done while processing one
pending record (an exception anywhere in that loop iteration; the Poller's
rollback discards the whole transaction, so the exact point inside the
iteration is not observable in committed state), and the external
`create_default_shifts_for_employee_position` collaborator. -/
structure ExecEnv where
  now : Nat
  shiftFails : Shift → Bool
  leaveFails : Leave → Bool
  scheduleGen : String → Nat → Nat → List Shift → List Shift × Nat × Nat

/-- `shift.approved = True` on the ORM object, seen in the store. -/
def setShiftApproved (shift_id : Nat) (db : DBState) : DBState :=
  { db with shifts := db.shifts.map (fun s => if s.id = shift_id then { s with approved := true } else s) }

def setLeaveApproved (leave_id : Nat) (db : DBState) : DBState :=
  { db with leaves := db.leaves.map (fun l => if l.id = leave_id then { l with approved := true } else l) }

/-- The `for shift in pending_shifts` loop of `_execute_automation`.
`Except.error` models an exception escaping one iteration. -/
def approveShiftsLoop (env : ExecEnv) (shift_link : String) :
    List Shift → DBState → Nat → Except Unit (DBState × Nat)
  | [], db, approved_shifts => .ok (db, approved_shifts)
  | shift :: rest, db, approved_shifts =>
    if env.shiftFails shift then .error ()
    else
      let db := setShiftApproved shift.id db
      let request_message := buildShiftRequestMessage shift.employee shift.date
      let db := clearRequestNotifications request_message (some shift_link) db
      let db := notifyEmployee shift.employee_id
        ("Dein Einsatz am " ++ fmtDate shift.date ++ " wurde automatisch genehmigt.")
        (some (urlForSchedule shift.date.month shift.date.year)) db
      approveShiftsLoop env shift_link rest db (approved_shifts + 1)

/-- The `for leave in pending_leaves` loop of `_execute_automation`. -/
def approveLeavesLoop (env : ExecEnv) (leave_link : String) :
    List Leave → DBState → Nat → Except Unit (DBState × Nat)
  | [], db, approved_leaves => .ok (db, approved_leaves)
  | leave :: rest, db, approved_leaves =>
    if env.leaveFails leave then .error ()
    else
      let db := setLeaveApproved leave.id db
      let request_message := buildLeaveRequestMessage leave.employee leave.leave_type
        leave.start_date leave.end_date
      let db := clearRequestNotifications request_message (some leave_link) db
      let date_range := leaveDateRange leave.start_date leave.end_date
      let db := notifyEmployee leave.employee_id
        ("Dein " ++ leave.leave_type ++ "-Antrag für " ++ date_range
          ++ " wurde automatisch genehmigt.")
        (some urlForLeaveForm) db
      approveLeavesLoop env leave_link rest db (approved_leaves + 1)

/-- The `summary_parts` list assembled at the end of `_execute_automation`. -/
def summaryParts (a : ApprovalAutomation) (approved_shifts approved_leaves : Nat)
    (created_schedule_shifts skipped_schedule_shifts : Nat)
    (schedule_month_label : Option String) : List String :=
  (if approved_shifts ≠ 0 then [toString approved_shifts ++ " Einsätze freigegeben"] else [])
  ++ (if approved_leaves ≠ 0 then [toString approved_leaves ++ " Abwesenheiten genehmigt"] else [])
  ++ (match schedule_month_label with
      | none => []
      | some label =>
        let schedule_part :=
          (if created_schedule_shifts = 0 ∧ skipped_schedule_shifts = 0 then
            "Keine Schichten erstellt"
          else
            toString created_schedule_shifts ++ " Schichten erstellt"
              ++ (if skipped_schedule_shifts ≠ 0 then
                    ", " ++ toString skipped_schedule_shifts ++ " übersprungen"
                  else ""))
        [schedule_part ++ " (" ++ (a.target_position.getD "") ++ ", Monat " ++ label ++ ")"])

/-- Summary sentence assembly at the end of `_execute_automation`, plus the
admin broadcast when anything was done. -/
def summarizeAndNotify (a : ApprovalAutomation) (approved_shifts approved_leaves : Nat)
    (created_schedule_shifts skipped_schedule_shifts : Nat)
    (schedule_month_label : Option String) (db : DBState) : String × DBState :=
  let summary_parts : List String :=
    summaryParts a approved_shifts approved_leaves created_schedule_shifts
      skipped_schedule_shifts schedule_month_label
  if summary_parts ≠ [] then
    let summary_text := String.intercalate " · " summary_parts
    let admin_message := "Automation '" ++ a.name ++ "' hat " ++ summary_text ++ "."
    let admins := db.employees.filter (fun e => e.is_admin)
    let db := admins.foldl
      (fun db admin => createNotification admin.id admin_message (some urlForSystemSettings) db) db
    (summary_text, db)
  else
    ("Keine offenen Vorgänge gefunden.", db)

/-- The `auto_schedule_position` branch of `_execute_automation` plus the
closing summary composition shared by every exit of that function. -/
def executeTail (env : ExecEnv) (a : ApprovalAutomation)
    (approved_shifts approved_leaves : Nat) (db : DBState) : String × DBState :=
  if a.automation_type = "auto_schedule_position" then
    match a.target_position with
    | none =>
      ("Keine Zielgruppe für die Auto-Schicht-Automatisierung hinterlegt.", db)
    | some target_position =>
      if target_position = "" then
        ("Keine Zielgruppe für die Auto-Schicht-Automatisierung hinterlegt.", db)
      else
        let reference_dt := a.next_run.getD env.now
        let target_year := yearOf reference_dt
        let target_month := monthOf reference_dt
        let (new_shifts, created, skipped) :=
          env.scheduleGen target_position target_year target_month db.shifts
        let db := { db with shifts := new_shifts }
        let schedule_month_label := pad2 target_month ++ "." ++ pad4 target_year
        summarizeAndNotify a approved_shifts approved_leaves created skipped
          (some schedule_month_label) db
  else
    summarizeAndNotify a approved_shifts approved_leaves 0 0 none db

/-- `_execute_automation`. -/
def executeAutomation (env : ExecEnv) (a : ApprovalAutomation) (db : DBState) :
    Except Unit (String × DBState) :=
  let shift_link := urlForShiftRequestsOverview
  let leave_link := urlForLeaveRequests
  match (if a.automation_type = "approve_shifts" ∨ a.automation_type = "approve_all" then
      approveShiftsLoop env shift_link (db.shifts.filter (fun s => !s.approved)) db 0
    else .ok (db, 0)) with
  | .error e => .error e
  | .ok (db, approved_shifts) =>
    match (if a.automation_type = "approve_leaves" ∨ a.automation_type = "approve_all" then
        approveLeavesLoop env leave_link (db.leaves.filter (fun l => !l.approved)) db 0
      else .ok (db, 0)) with
    | .error e => .error e
    | .ok (db, approved_leaves) =>
      .ok (executeTail env a approved_shifts approved_leaves db)

/-- The scheduling-state stamping of `_run_and_schedule_automation` on the
rule object: `last_run`, `last_run_summary`, `next_run` (cleared for `once`,
recomputed from `now + 1s` otherwise) and `updated_at`. -/
def rescheduleStamp (env : ExecEnv) (summary : String) (a : ApprovalAutomation) :
    ApprovalAutomation :=
  let now := env.now
  let a1 := { a with last_run := some now, last_run_summary := some summary }
  let recomputed :=
    calculateNextRun env.now a1.schedule_type a1.run_time a1.days_of_week (some (now + 1))
  let a2 :=
    if a1.schedule_type = "once" then
      { a1 with is_active := false, next_run := none }
    else
      { a1 with next_run := recomputed }
  { a2 with updated_at := some env.now }

/-- `_run_and_schedule_automation`: run the executor, stamp the rule via
`rescheduleStamp`, commit.  An `Except.error` is an exception escaping to
the caller with nothing committed. -/
def runAndScheduleAutomation (env : ExecEnv) (a : ApprovalAutomation) (db : DBState) :
    Except Unit (String × DBState) :=
  match executeAutomation env a db with
  | .error e => .error e
  | .ok (summary, db) =>
    let a3 := rescheduleStamp env summary a
    let committed := db.automations.map (fun b => if b.id = a.id then a3 else b)
    .ok (summary, { db with automations := committed })

/-- Whether the Poller's due-query selects this rule at instant `now`. -/
def isDue (now : Nat) (a : ApprovalAutomation) : Bool :=
  a.is_active && (match a.next_run with
    | some t => decide (t ≤ now)
    | none => false)

/-- One rule inside the Poller's loop: run it; on an exception, roll the
transaction back (keep the pre-rule committed state) and continue. -/
def pollStep (env : ExecEnv) (db : DBState) (a : ApprovalAutomation) : DBState :=
  match runAndScheduleAutomation env a db with
  | .ok (_, db1) => db1
  | .error _ => db

/-- `_process_due_automations`: query the due rules once, then process them
one at a time, each in its own transaction. -/
def processDueAutomations (env : ExecEnv) (db : DBState) : DBState :=
  let due_automations := db.automations.filter (isDue env.now)
  due_automations.foldl (pollStep env) db

/-- Row lookup by primary key in the automation table. -/
def findAuto (db : DBState) (i : Nat) : Option ApprovalAutomation :=
  db.automations.find? (fun b => b.id == i)

/-- `toggle_automated_approval` on the targeted rule (`now` is the
`datetime.now()` reading of the request). -/
def toggleAutomatedApproval (now : Nat) (a : ApprovalAutomation) : ApprovalAutomation :=
  let a := { a with is_active := !a.is_active }
  if a.is_active then
    if a.schedule_type = "once" ∧ a.next_run = none then
      { a with is_active := false }
    else
      if a.next_run = none then
        { a with next_run :=
            calculateNextRun now a.schedule_type a.run_time a.days_of_week (some (now + 1)) }
      else a
  else a

/-! ## Helper lemmas -/

theorem mem_insertSet {x a : Nat} {l : List Nat} (h : x ∈ insertSet a l) :
    x = a ∨ x ∈ l := by
  unfold insertSet at h
  by_cases ha : a ∈ l
  · rw [if_pos ha] at h; exact Or.inr h
  · rw [if_neg ha] at h
    rcases List.mem_cons.mp h with rfl | h'
    · exact Or.inl rfl
    · exact Or.inr h'

theorem mem_insertSorted {x a : Nat} : ∀ {l : List Nat},
    x ∈ insertSorted a l ↔ x = a ∨ x ∈ l := by
  intro l
  induction l with
  | nil => simp [insertSorted]
  | cons y ys ih =>
    simp only [insertSorted]
    by_cases hy : a ≤ y
    · rw [if_pos hy]; simp
    · rw [if_neg hy]
      simp only [List.mem_cons, ih]
      tauto

theorem mem_sortNat {x : Nat} : ∀ {l : List Nat}, x ∈ sortNat l ↔ x ∈ l := by
  intro l
  induction l with
  | nil => simp [sortNat]
  | cons y ys ih =>
    simp only [sortNat, List.foldr_cons] at *
    rw [mem_insertSorted, ih]
    simp

theorem mem_parseEntryFold {acc : List Nat} {entry : List Char} {x : Nat}
    (hx : x ∈ parseEntryFold acc entry) : x ∈ acc ∨ x < 7 := by
  simp only [parseEntryFold] at hx
  by_cases h1 : pyStrip entry = []
  · rw [if_pos h1] at hx; exact Or.inl hx
  · rw [if_neg h1] at hx
    cases hpi : pyInt (pyStrip entry) with
    | none => rw [hpi] at hx; exact Or.inl hx
    | some day =>
      rw [hpi] at hx
      dsimp only at hx
      by_cases h2 : 0 ≤ day ∧ day ≤ 6
      · rw [if_pos h2] at hx
        rcases mem_insertSet hx with h | h
        · right; omega
        · exact Or.inl h
      · rw [if_neg h2] at hx; exact Or.inl hx

theorem parseDaysOfWeek_mem_lt {days : Option String} {x : Nat}
    (hx : x ∈ parseDaysOfWeek days) : x < 7 := by
  unfold parseDaysOfWeek at hx
  cases days with
  | none => simp at hx
  | some s =>
    by_cases hs : s = ""
    · simp [hs] at hx
    · simp only [hs, if_false] at hx
      rw [mem_sortNat] at hx
      have inv : ∀ (es : List (List Char)) (init : List Nat),
          (∀ y ∈ init, y < 7) → ∀ y ∈ es.foldl parseEntryFold init, y < 7 := by
        intro es
        induction es with
        | nil => intro init h y hy; exact h y hy
        | cons e rest ih =>
          intro init h y hy
          simp only [List.foldl_cons] at hy
          refine ih _ ?_ y hy
          intro z hz
          rcases mem_parseEntryFold hz with h' | h'
          · exact h z h'
          · exact h'
      exact inv _ [] (by simp) x hx

theorem dateOf_combine (d rt : Nat) (h : rt < secPerDay) : dateOf (combine d rt) = d := by
  simp only [dateOf, combine, secPerDay] at *
  omega

theorem lt_combine_of_delta_pos (reference rt delta : Nat) (h : 1 ≤ delta) :
    reference < combine (dateOf reference + delta) rt := by
  simp only [dateOf, combine, secPerDay]
  omega

theorem exists_delta_weekday (r a : Nat) (ha : a < 7) :
    ∃ delta, 1 ≤ delta ∧ delta < 8 ∧ weekdayOf (r + delta) = a := by
  unfold weekdayOf
  by_cases h0 : (a + 7 - (r + 3) % 7) % 7 = 0
  · exact ⟨7, by omega, by omega, by omega⟩
  · exact ⟨(a + 7 - (r + 3) % 7) % 7, by omega, by omega, by omega⟩

theorem scanDeltas_some_spec {reference run_time : Nat} {allowed : List Nat} :
    ∀ {ds : List Nat} {n : Nat}, scanDeltas reference run_time allowed ds = some n →
      reference < n ∧ ∃ delta ∈ ds, n = combine (dateOf reference + delta) run_time ∧
        weekdayOf (dateOf reference + delta) ∈ allowed := by
  intro ds
  induction ds with
  | nil => intro n h; simp [scanDeltas] at h
  | cons delta rest ih =>
    intro n h
    simp only [scanDeltas] at h
    by_cases h1 : combine (dateOf reference + delta) run_time ≤ reference
    · rw [if_pos h1] at h
      obtain ⟨h2, d, hd, hn, hw⟩ := ih h
      exact ⟨h2, d, List.mem_cons_of_mem _ hd, hn, hw⟩
    · rw [if_neg h1] at h
      by_cases h2 : weekdayOf (dateOf reference + delta) ∈ allowed
      · rw [if_pos h2] at h
        injection h with h
        exact ⟨by omega, delta, List.mem_cons_self _ _, h.symm, h2⟩
      · rw [if_neg h2] at h
        obtain ⟨h3, d, hd, hn, hw⟩ := ih h
        exact ⟨h3, d, List.mem_cons_of_mem _ hd, hn, hw⟩

theorem scanDeltas_isSome_of_exists {reference run_time : Nat} {allowed : List Nat} :
    ∀ {ds : List Nat},
      (∃ delta ∈ ds, reference < combine (dateOf reference + delta) run_time ∧
        weekdayOf (dateOf reference + delta) ∈ allowed) →
      (scanDeltas reference run_time allowed ds).isSome := by
  intro ds
  induction ds with
  | nil =>
    rintro ⟨d, hd, -⟩
    simp at hd
  | cons delta rest ih =>
    rintro ⟨d, hd, hlt, hw⟩
    simp only [scanDeltas]
    by_cases h1 : combine (dateOf reference + delta) run_time ≤ reference
    · rw [if_pos h1]
      rcases List.mem_cons.mp hd with rfl | hd'
      · exact absurd hlt (by omega)
      · exact ih ⟨d, hd', hlt, hw⟩
    · rw [if_neg h1]
      by_cases h2 : weekdayOf (dateOf reference + delta) ∈ allowed
      · rw [if_pos h2]; simp
      · rw [if_neg h2]
        rcases List.mem_cons.mp hd with rfl | hd'
        · exact absurd hw h2
        · exact ih ⟨d, hd', hlt, hw⟩

theorem weeklyScan_total (reference run_time : Nat) (allowed : List Nat)
    (hne : allowed ≠ []) (hlt : ∀ x ∈ allowed, x < 7) :
    ∃ n, weeklyScan reference run_time allowed = some n ∧ reference < n ∧
      ∃ d, n = combine d run_time ∧ weekdayOf d ∈ allowed := by
  obtain ⟨a, ha⟩ := List.exists_mem_of_ne_nil allowed hne
  obtain ⟨delta, h1, h8, hw⟩ := exists_delta_weekday (dateOf reference) a (hlt a ha)
  have hx : (scanDeltas reference run_time allowed (List.range 8)).isSome :=
    scanDeltas_isSome_of_exists ⟨delta, List.mem_range.mpr (by omega),
      lt_combine_of_delta_pos _ _ _ h1, by rw [hw]; exact ha⟩
  obtain ⟨n, hn⟩ := Option.isSome_iff_exists.mp hx
  obtain ⟨hlt', d, hd, hnc, hwd⟩ := scanDeltas_some_spec hn
  exact ⟨n, hn, hlt', _, hnc, hwd⟩

theorem calculateNextRun_daily_eq (w rt ref : Nat) (days : Option String) :
    calculateNextRun w "daily" (some rt) days (some ref) =
      if combine (dateOf ref) rt ≤ ref then some (combine (dateOf ref) rt + secPerDay)
      else some (combine (dateOf ref) rt) := rfl

theorem calculateNextRun_weekly_eq (w rt ref : Nat) (days : Option String) :
    calculateNextRun w "weekly" (some rt) days (some ref) =
      match weeklyScan ref rt
          (if parseDaysOfWeek days = [] then List.range 7 else parseDaysOfWeek days) with
      | some c => some c
      | none => some (weeklyFallback ref rt
          (if parseDaysOfWeek days = [] then List.range 7 else parseDaysOfWeek days)) := rfl

theorem calcNextRun_recurring_pos (w rt ref : Nat) (days : Option String) (st : String)
    (hst : st = "daily" ∨ st = "weekly") :
    ∃ n, calculateNextRun w st (some rt) days (some ref) = some n ∧ ref < n := by
  rcases hst with rfl | rfl
  · rw [calculateNextRun_daily_eq]
    by_cases h : combine (dateOf ref) rt ≤ ref
    · rw [if_pos h]
      refine ⟨_, rfl, ?_⟩
      simp only [combine, dateOf, secPerDay] at *
      omega
    · rw [if_neg h]
      exact ⟨_, rfl, by omega⟩
  · rw [calculateNextRun_weekly_eq]
    have hne : (if parseDaysOfWeek days = [] then List.range 7 else parseDaysOfWeek days) ≠ [] := by
      by_cases hp : parseDaysOfWeek days = []
      · simp [hp]
      · simp [hp]
    have hlt : ∀ x ∈ (if parseDaysOfWeek days = [] then List.range 7 else parseDaysOfWeek days),
        x < 7 := by
      by_cases hp : parseDaysOfWeek days = []
      · simp only [hp, if_pos]
        intro x hx; exact List.mem_range.mp hx
      · simp only [hp, if_neg, not_false_eq_true]
        intro x hx; exact parseDaysOfWeek_mem_lt hx
    obtain ⟨n, hn, hpos, -⟩ :=
      weeklyScan_total ref rt
        (if parseDaysOfWeek days = [] then List.range 7 else parseDaysOfWeek days) hne hlt
    rw [hn]
    exact ⟨n, rfl, hpos⟩

theorem widenedDays_ne_nil (days : Option String) :
    (if parseDaysOfWeek days = [] then List.range 7 else parseDaysOfWeek days) ≠ [] := by
  by_cases hp : parseDaysOfWeek days = []
  · simp [hp]
  · simp [hp]

theorem widenedDays_lt (days : Option String) :
    ∀ x ∈ (if parseDaysOfWeek days = [] then List.range 7 else parseDaysOfWeek days),
      x < 7 := by
  by_cases hp : parseDaysOfWeek days = []
  · simp only [hp, if_pos]
    intro x hx; exact List.mem_range.mp hx
  · simp only [hp, if_neg, not_false_eq_true]
    intro x hx; exact parseDaysOfWeek_mem_lt hx

/-! ## Claim theorems: Recurrence Calculator -/

/-- C2: for every reference instant and every time-of-day, the `daily`
branch of `_calculate_next_run` returns an instant strictly after the
reference and at most 24 hours after it. -/
theorem daily_next_run_in_window (w reference run_time : Nat) (days : Option String)
    (h : run_time < secPerDay) :
    ∃ n, calculateNextRun w "daily" (some run_time) days (some reference) = some n ∧
      reference < n ∧ n ≤ reference + secPerDay := by
  rw [calculateNextRun_daily_eq]
  by_cases hc : combine (dateOf reference) run_time ≤ reference
  · rw [if_pos hc]
    refine ⟨_, rfl, ?_, ?_⟩ <;>
      (simp only [combine, dateOf, secPerDay] at *; omega)
  · rw [if_neg hc]
    refine ⟨_, rfl, ?_, ?_⟩ <;>
      (simp only [combine, dateOf, secPerDay] at *; omega)

theorem daily_next_run_in_window_witness :
    (9 * 3600 < secPerDay) ∧
    ∃ n, calculateNextRun 0 "daily" (some (9 * 3600)) none (some (4 * 86400 + 8 * 3600)) =
        some n ∧
      4 * 86400 + 8 * 3600 < n ∧ n ≤ 4 * 86400 + 8 * 3600 + secPerDay :=
  ⟨by decide, daily_next_run_in_window 0 (4 * 86400 + 8 * 3600) (9 * 3600) none (by decide)⟩

/-- C3: for every reference and time-of-day, when the parsed weekday set is
non-empty, the `weekly` branch returns an instant strictly after the
reference whose weekday belongs to the parsed set. -/
theorem weekly_next_run_on_allowed_weekday (w reference run_time : Nat) (days : Option String)
    (hrt : run_time < secPerDay) (hne : parseDaysOfWeek days ≠ []) :
    ∃ n, calculateNextRun w "weekly" (some run_time) days (some reference) = some n ∧
      reference < n ∧ weekdayOf (dateOf n) ∈ parseDaysOfWeek days := by
  rw [calculateNextRun_weekly_eq, if_neg hne]
  obtain ⟨n, hn, hpos, d, hnc, hwd⟩ :=
    weeklyScan_total reference run_time (parseDaysOfWeek days) hne
      (fun x hx => parseDaysOfWeek_mem_lt hx)
  rw [hn]
  refine ⟨n, rfl, hpos, ?_⟩
  rw [hnc, dateOf_combine d run_time hrt]
  exact hwd

theorem weekly_next_run_on_allowed_weekday_witness :
    (7 * 3600 < secPerDay) ∧ (parseDaysOfWeek (some "1,3") ≠ []) ∧
    ∃ n, calculateNextRun 0 "weekly" (some (7 * 3600)) (some "1,3")
        (some (4 * 86400 + 12 * 3600)) = some n ∧
      4 * 86400 + 12 * 3600 < n ∧ weekdayOf (dateOf n) ∈ parseDaysOfWeek (some "1,3") :=
  ⟨by decide, by decide,
    weekly_next_run_on_allowed_weekday 0 (4 * 86400 + 12 * 3600) (7 * 3600) (some "1,3")
      (by decide) (by decide)⟩

/-- C9: the Recurrence Calculator is deterministic: with the reference
instant supplied, its result is a pure function of
`(schedule_type, run_time, days_of_week, reference)` — two calls with
identical arguments agree whatever the hidden wall-clock readings
(`w1`, `w2`) are, so there is no dependence on `datetime.now()` beyond the
explicit `reference` parameter. -/
theorem calculateNextRun_deterministic (w1 w2 : Nat) (schedule_type : String)
    (run_time_value : Option Nat) (days : Option String) (reference : Nat) :
    calculateNextRun w1 schedule_type run_time_value days (some reference) =
      calculateNextRun w2 schedule_type run_time_value days (some reference) := rfl

/-- C10: for `weekly` with a run time present — whatever the `days_of_week`
string, malformed or empty included — the 8-offset scan always finds a
qualifying candidate, so the post-loop fallback is unreachable and the
calculator never returns `none`. -/
theorem weekly_scan_always_succeeds (w reference run_time : Nat) (days : Option String) :
    ∃ n, weeklyScan reference run_time
        (if parseDaysOfWeek days = [] then List.range 7 else parseDaysOfWeek days) = some n ∧
      calculateNextRun w "weekly" (some run_time) days (some reference) = some n := by
  obtain ⟨n, hn, -, -⟩ :=
    weeklyScan_total reference run_time
      (if parseDaysOfWeek days = [] then List.range 7 else parseDaysOfWeek days)
      (widenedDays_ne_nil days) (widenedDays_lt days)
  refine ⟨n, hn, ?_⟩
  rw [calculateNextRun_weekly_eq, hn]

/-! ## Preservation lemmas: the executor never writes the automation table -/

theorem createNotification_automations (r : Nat) (m : String) (l : Option String)
    (db : DBState) : (createNotification r m l db).automations = db.automations := by
  unfold createNotification
  split <;> rfl

theorem clearRequestNotifications_automations (m : String) (l : Option String)
    (db : DBState) : (clearRequestNotifications m l db).automations = db.automations := by
  unfold clearRequestNotifications
  split <;> rfl

theorem notifyEmployee_automations (e : Nat) (m : String) (l : Option String)
    (db : DBState) : (notifyEmployee e m l db).automations = db.automations := by
  unfold notifyEmployee
  split
  · rfl
  · exact createNotification_automations _ _ _ _

theorem setShiftApproved_automations (i : Nat) (db : DBState) :
    (setShiftApproved i db).automations = db.automations := rfl

theorem setLeaveApproved_automations (i : Nat) (db : DBState) :
    (setLeaveApproved i db).automations = db.automations := rfl

theorem approveShiftsLoop_automations (env : ExecEnv) (link : String) :
    ∀ (ps : List Shift) (db : DBState) (c : Nat) (db1 : DBState) (c1 : Nat),
      approveShiftsLoop env link ps db c = .ok (db1, c1) →
      db1.automations = db.automations := by
  intro ps
  induction ps with
  | nil =>
    intro db c db1 c1 h
    simp only [approveShiftsLoop] at h
    cases h
    rfl
  | cons sft rest ih =>
    intro db c db1 c1 h
    simp only [approveShiftsLoop] at h
    by_cases hf : env.shiftFails sft
    · rw [if_pos hf] at h; cases h
    · rw [if_neg hf] at h
      rw [ih _ _ _ _ h, notifyEmployee_automations, clearRequestNotifications_automations,
        setShiftApproved_automations]

theorem approveLeavesLoop_automations (env : ExecEnv) (link : String) :
    ∀ (ls : List Leave) (db : DBState) (c : Nat) (db1 : DBState) (c1 : Nat),
      approveLeavesLoop env link ls db c = .ok (db1, c1) →
      db1.automations = db.automations := by
  intro ls
  induction ls with
  | nil =>
    intro db c db1 c1 h
    simp only [approveLeavesLoop] at h
    cases h
    rfl
  | cons lv rest ih =>
    intro db c db1 c1 h
    simp only [approveLeavesLoop] at h
    by_cases hf : env.leaveFails lv
    · rw [if_pos hf] at h; cases h
    · rw [if_neg hf] at h
      rw [ih _ _ _ _ h, notifyEmployee_automations, clearRequestNotifications_automations,
        setLeaveApproved_automations]

theorem notifyAdminsFold_automations (msg : String) (l : Option String) :
    ∀ (admins : List Employee) (db : DBState),
      ((admins.foldl (fun db admin => createNotification admin.id msg l db) db)).automations
        = db.automations := by
  intro admins
  induction admins with
  | nil => intro db; rfl
  | cons ad rest ih =>
    intro db
    simp only [List.foldl_cons]
    rw [ih, createNotification_automations]

theorem summarizeAndNotify_automations (a : ApprovalAutomation) (s1 s2 c1 c2 : Nat)
    (lbl : Option String) (db : DBState) :
    (summarizeAndNotify a s1 s2 c1 c2 lbl db).2.automations = db.automations := by
  unfold summarizeAndNotify
  dsimp only
  split
  · exact notifyAdminsFold_automations _ _ _ _
  · rfl

theorem executeTail_automations (env : ExecEnv) (a : ApprovalAutomation)
    (s1 s2 : Nat) (db : DBState) :
    (executeTail env a s1 s2 db).2.automations = db.automations := by
  unfold executeTail
  by_cases h1 : a.automation_type = "auto_schedule_position"
  · rw [if_pos h1]
    cases htp : a.target_position with
    | none => rfl
    | some tp =>
      dsimp only
      by_cases h2 : tp = ""
      · rw [if_pos h2]
      · rw [if_neg h2]
        exact summarizeAndNotify_automations _ _ _ _ _ _ _
  · rw [if_neg h1]
    exact summarizeAndNotify_automations _ _ _ _ _ _ _

theorem executeAutomation_automations (env : ExecEnv) (a : ApprovalAutomation)
    (db : DBState) (s : String) (db1 : DBState)
    (h : executeAutomation env a db = .ok (s, db1)) : db1.automations = db.automations := by
  simp only [executeAutomation] at h
  cases hx : (if a.automation_type = "approve_shifts" ∨ a.automation_type = "approve_all" then
      approveShiftsLoop env urlForShiftRequestsOverview
        (db.shifts.filter (fun s => !s.approved)) db 0
    else .ok (db, 0)) with
  | error e => rw [hx] at h; cases h
  | ok p =>
    obtain ⟨dba, ca⟩ := p
    rw [hx] at h
    dsimp only at h
    have hda : dba.automations = db.automations := by
      by_cases hc : a.automation_type = "approve_shifts" ∨ a.automation_type = "approve_all"
      · rw [if_pos hc] at hx
        exact approveShiftsLoop_automations _ _ _ _ _ _ _ hx
      · rw [if_neg hc] at hx
        cases hx
        rfl
    cases hy : (if a.automation_type = "approve_leaves" ∨ a.automation_type = "approve_all" then
        approveLeavesLoop env urlForLeaveRequests
          (dba.leaves.filter (fun l => !l.approved)) dba 0
      else .ok (dba, 0)) with
    | error e => rw [hy] at h; cases h
    | ok q =>
      obtain ⟨dbb, cb⟩ := q
      rw [hy] at h
      dsimp only at h
      have hdb : dbb.automations = dba.automations := by
        by_cases hc : a.automation_type = "approve_leaves" ∨ a.automation_type = "approve_all"
        · rw [if_pos hc] at hy
          exact approveLeavesLoop_automations _ _ _ _ _ _ _ hy
        · rw [if_neg hc] at hy
          cases hy
          rfl
      injection h with h2
      have hd1 := congrArg Prod.snd h2
      dsimp only at hd1
      rw [← hd1, executeTail_automations, hdb, hda]

/-! ## Orchestrator lemmas -/

theorem rescheduleStamp_id (env : ExecEnv) (s : String) (a : ApprovalAutomation) :
    (rescheduleStamp env s a).id = a.id := by
  unfold rescheduleStamp
  dsimp only
  split <;> rfl

theorem rescheduleStamp_last_run (env : ExecEnv) (s : String) (a : ApprovalAutomation) :
    (rescheduleStamp env s a).last_run = some env.now := by
  unfold rescheduleStamp
  dsimp only
  split <;> rfl

theorem rescheduleStamp_once (env : ExecEnv) (s : String) (a : ApprovalAutomation)
    (h : a.schedule_type = "once") :
    (rescheduleStamp env s a).is_active = false ∧ (rescheduleStamp env s a).next_run = none := by
  unfold rescheduleStamp
  dsimp only
  rw [if_pos h]
  exact ⟨rfl, rfl⟩

theorem rescheduleStamp_recurring (env : ExecEnv) (s : String) (a : ApprovalAutomation)
    (h : a.schedule_type ≠ "once") :
    (rescheduleStamp env s a).next_run =
      calculateNextRun env.now a.schedule_type a.run_time a.days_of_week
        (some (env.now + 1)) := by
  unfold rescheduleStamp
  dsimp only
  rw [if_neg h]

theorem runAndSchedule_ok_automations (env : ExecEnv) (a : ApprovalAutomation)
    (db : DBState) (s : String) (db' : DBState)
    (h : runAndScheduleAutomation env a db = .ok (s, db')) :
    db'.automations =
      db.automations.map (fun b => if b.id = a.id then rescheduleStamp env s a else b) := by
  unfold runAndScheduleAutomation at h
  cases hx : executeAutomation env a db with
  | error e => rw [hx] at h; cases h
  | ok p =>
    obtain ⟨s0, dbe⟩ := p
    rw [hx] at h
    dsimp only at h
    injection h with h2
    injection h2 with hs hdb
    subst hs
    rw [← hdb, executeAutomation_automations env a db s0 dbe hx]

/-! ## Claim theorems: Orchestrator -/

/-- C1: after one successful Orchestrator run at instant `now` on a
recurring rule (`daily` or `weekly`) whose `run_time` is set, the committed
rule row has `last_run = now` and a `next_run` strictly later than `now`. -/
theorem recurring_rule_advances (env : ExecEnv) (a : ApprovalAutomation) (db : DBState)
    (summary : String) (db' : DBState) (rt : Nat)
    (hsched : a.schedule_type = "daily" ∨ a.schedule_type = "weekly")
    (hrt : a.run_time = some rt)
    (ha : a ∈ db.automations)
    (hrun : runAndScheduleAutomation env a db = .ok (summary, db')) :
    ∃ a' ∈ db'.automations, a'.id = a.id ∧ a'.last_run = some env.now ∧
      ∃ n, a'.next_run = some n ∧ env.now < n := by
  have hmap := runAndSchedule_ok_automations env a db summary db' hrun
  refine ⟨rescheduleStamp env summary a, ?_, rescheduleStamp_id env summary a,
    rescheduleStamp_last_run env summary a, ?_⟩
  · rw [hmap]
    have hmem := List.mem_map_of_mem
      (fun b => if b.id = a.id then rescheduleStamp env summary a else b) ha
    simpa using hmem
  · have hne : a.schedule_type ≠ "once" := by
      rcases hsched with h | h <;> (rw [h]; decide)
    rw [rescheduleStamp_recurring env summary a hne, hrt]
    obtain ⟨n, hn, hpos⟩ :=
      calcNextRun_recurring_pos env.now rt (env.now + 1) a.days_of_week a.schedule_type hsched
    exact ⟨n, hn, by omega⟩

theorem recurring_rule_advances_witness :
    ∃ s db',
      runAndScheduleAutomation
        ⟨1000, fun _ => false, fun _ => false, fun _ _ _ shifts => (shifts, 0, 0)⟩
        ⟨1, "r", "approve_shifts", "daily", some 3600, none, none, some 500, none, none,
          true, none⟩
        ⟨[], [], [], [], [⟨1, "r", "approve_shifts", "daily", some 3600, none, none,
          some 500, none, none, true, none⟩]⟩ = .ok (s, db') ∧
      ∃ a' ∈ db'.automations, a'.id = 1 ∧ a'.last_run = some 1000 ∧
        ∃ n, a'.next_run = some n ∧ 1000 < n :=
  ⟨_, _, rfl,
    recurring_rule_advances
      ⟨1000, fun _ => false, fun _ => false, fun _ _ _ shifts => (shifts, 0, 0)⟩
      ⟨1, "r", "approve_shifts", "daily", some 3600, none, none, some 500, none, none,
        true, none⟩
      ⟨[], [], [], [], [⟨1, "r", "approve_shifts", "daily", some 3600, none, none,
        some 500, none, none, true, none⟩]⟩
      _ _ 3600 (Or.inl rfl) rfl (by simp) rfl⟩

/-- C4: after one successful Orchestrator run, a rule with
`schedule_type = once` is committed with `is_active = false` and no
`next_run`. -/
theorem once_rule_exhausts (env : ExecEnv) (a : ApprovalAutomation) (db : DBState)
    (summary : String) (db' : DBState)
    (hsched : a.schedule_type = "once")
    (ha : a ∈ db.automations)
    (hrun : runAndScheduleAutomation env a db = .ok (summary, db')) :
    ∃ a' ∈ db'.automations, a'.id = a.id ∧ a'.is_active = false ∧ a'.next_run = none := by
  have hmap := runAndSchedule_ok_automations env a db summary db' hrun
  obtain ⟨hact, hnr⟩ := rescheduleStamp_once env summary a hsched
  refine ⟨rescheduleStamp env summary a, ?_, rescheduleStamp_id env summary a, hact, hnr⟩
  rw [hmap]
  have hmem := List.mem_map_of_mem
    (fun b => if b.id = a.id then rescheduleStamp env summary a else b) ha
  simpa using hmem

theorem once_rule_exhausts_witness :
    ∃ s db',
      runAndScheduleAutomation
        ⟨2000, fun _ => false, fun _ => false, fun _ _ _ shifts => (shifts, 0, 0)⟩
        ⟨7, "o", "approve_leaves", "once", some 60, none, none, some 1500, none, none,
          true, none⟩
        ⟨[], [], [], [], [⟨7, "o", "approve_leaves", "once", some 60, none, none,
          some 1500, none, none, true, none⟩]⟩ = .ok (s, db') ∧
      ∃ a' ∈ db'.automations, a'.id = 7 ∧ a'.is_active = false ∧ a'.next_run = none :=
  ⟨_, _, rfl,
    once_rule_exhausts
      ⟨2000, fun _ => false, fun _ => false, fun _ _ _ shifts => (shifts, 0, 0)⟩
      ⟨7, "o", "approve_leaves", "once", some 60, none, none, some 1500, none, none,
        true, none⟩
      ⟨[], [], [], [], [⟨7, "o", "approve_leaves", "once", some 60, none, none,
        some 1500, none, none, true, none⟩]⟩
      _ _ rfl (by simp) rfl⟩

/-! ## Poller lemmas -/

theorem find_map_guard (aid i : Nat) (c : ApprovalAutomation) (hc : c.id = aid)
    (hi : i ≠ aid) :
    ∀ l : List ApprovalAutomation,
      (l.map (fun b => if b.id = aid then c else b)).find? (fun b => b.id == i)
        = l.find? (fun b => b.id == i) := by
  intro l
  induction l with
  | nil => rfl
  | cons b rest ih =>
    simp only [List.map_cons]
    by_cases hb : b.id = aid
    · rw [if_pos hb]
      have h1 : (c.id == i) = false := by simp [hc]; omega
      have h2 : (b.id == i) = false := by simp [hb]; omega
      simp only [List.find?, h1, h2]
      exact ih
    · rw [if_neg hb]
      by_cases hbi : b.id = i
      · have h1 : (b.id == i) = true := by simp [hbi]
        simp only [List.find?, h1]
      · have h1 : (b.id == i) = false := by simp [hbi]
        simp only [List.find?, h1]
        exact ih

theorem pollStep_error (env : ExecEnv) (db : DBState) (a : ApprovalAutomation)
    (h : runAndScheduleAutomation env a db = .error ()) : pollStep env db a = db := by
  unfold pollStep
  rw [h]

theorem pollStep_findAuto_ne (env : ExecEnv) (db : DBState) (b : ApprovalAutomation)
    (i : Nat) (h : i ≠ b.id) :
    findAuto (pollStep env db b) i = findAuto db i := by
  unfold pollStep
  cases hr : runAndScheduleAutomation env b db with
  | error e => rfl
  | ok p =>
    obtain ⟨s, db1⟩ := p
    have hmap := runAndSchedule_ok_automations env b db s db1 hr
    unfold findAuto
    dsimp only
    rw [hmap]
    exact find_map_guard b.id i (rescheduleStamp env s b) (rescheduleStamp_id env s b) h _

theorem foldl_pollStep_findAuto_ne (env : ExecEnv) (i : Nat) :
    ∀ (l : List ApprovalAutomation) (db : DBState), (∀ b ∈ l, b.id ≠ i) →
      findAuto (l.foldl (pollStep env) db) i = findAuto db i := by
  intro l
  induction l with
  | nil => intro db _; rfl
  | cons b rest ih =>
    intro db hl
    simp only [List.foldl_cons]
    rw [ih _ (fun x hx => hl x (List.mem_cons_of_mem _ hx)),
      pollStep_findAuto_ne env db b i (fun he => hl b (List.mem_cons_self _ _) he.symm)]

/-! ## Claim theorem: Background Poller error isolation -/

/-- C5: in one poll cycle over the due list `l1 ++ a :: l2`, if running rule
`a` (after the committed prefix `l1`) raises, the cycle continues with the
state from before `a` — so `a`'s in-flight changes are discarded, every
subsequent due rule in `l2` is still processed, and the automation row of
`a` ends the cycle exactly as it began it. -/
theorem poller_failure_isolated (env : ExecEnv) (db : DBState)
    (l1 l2 : List ApprovalAutomation) (a : ApprovalAutomation)
    (hdue : db.automations.filter (isDue env.now) = l1 ++ a :: l2)
    (hfail : runAndScheduleAutomation env a (l1.foldl (pollStep env) db) = .error ())
    (hid : ∀ b ∈ l1 ++ l2, b.id ≠ a.id) :
    processDueAutomations env db = l2.foldl (pollStep env) (l1.foldl (pollStep env) db) ∧
    findAuto (processDueAutomations env db) a.id = findAuto db a.id := by
  have hstep : processDueAutomations env db
      = l2.foldl (pollStep env) (pollStep env (l1.foldl (pollStep env) db) a) := by
    unfold processDueAutomations
    rw [hdue, List.foldl_append, List.foldl_cons]
  have hfa : pollStep env (l1.foldl (pollStep env) db) a = l1.foldl (pollStep env) db :=
    pollStep_error env _ a hfail
  have h1 : ∀ b ∈ l1, b.id ≠ a.id := fun b hb => hid b (List.mem_append_left _ hb)
  have h2 : ∀ b ∈ l2, b.id ≠ a.id := fun b hb => hid b (List.mem_append_right _ hb)
  constructor
  · rw [hstep, hfa]
  · rw [hstep, hfa, foldl_pollStep_findAuto_ne env a.id l2 _ h2,
      foldl_pollStep_findAuto_ne env a.id l1 db h1]

theorem poller_failure_isolated_witness :
    (processDueAutomations
        ⟨100, fun s => s.id == 11, fun _ => false, fun _ _ _ shifts => (shifts, 0, 0)⟩
        ⟨[], [⟨11, 5, ⟨5, "e", false⟩, ⟨2025, 1, 1⟩, false⟩], [], [],
          [⟨1, "bad", "approve_shifts", "daily", some 0, none, none, some 50, none, none,
            true, none⟩,
           ⟨2, "good", "approve_leaves", "daily", some 0, none, none, some 60, none, none,
            true, none⟩]⟩ =
      [⟨2, "good", "approve_leaves", "daily", some 0, none, none, some 60, none, none,
        true, none⟩].foldl
        (pollStep ⟨100, fun s => s.id == 11, fun _ => false,
          fun _ _ _ shifts => (shifts, 0, 0)⟩)
        ([].foldl
          (pollStep ⟨100, fun s => s.id == 11, fun _ => false,
            fun _ _ _ shifts => (shifts, 0, 0)⟩)
          ⟨[], [⟨11, 5, ⟨5, "e", false⟩, ⟨2025, 1, 1⟩, false⟩], [], [],
            [⟨1, "bad", "approve_shifts", "daily", some 0, none, none, some 50, none, none,
              true, none⟩,
             ⟨2, "good", "approve_leaves", "daily", some 0, none, none, some 60, none, none,
              true, none⟩]⟩)) ∧
    findAuto
      (processDueAutomations
        ⟨100, fun s => s.id == 11, fun _ => false, fun _ _ _ shifts => (shifts, 0, 0)⟩
        ⟨[], [⟨11, 5, ⟨5, "e", false⟩, ⟨2025, 1, 1⟩, false⟩], [], [],
          [⟨1, "bad", "approve_shifts", "daily", some 0, none, none, some 50, none, none,
            true, none⟩,
           ⟨2, "good", "approve_leaves", "daily", some 0, none, none, some 60, none, none,
            true, none⟩]⟩) 1 =
    findAuto
      ⟨[], [⟨11, 5, ⟨5, "e", false⟩, ⟨2025, 1, 1⟩, false⟩], [], [],
        [⟨1, "bad", "approve_shifts", "daily", some 0, none, none, some 50, none, none,
          true, none⟩,
         ⟨2, "good", "approve_leaves", "daily", some 0, none, none, some 60, none, none,
          true, none⟩]⟩ 1 :=
  poller_failure_isolated
    ⟨100, fun s => s.id == 11, fun _ => false, fun _ _ _ shifts => (shifts, 0, 0)⟩
    ⟨[], [⟨11, 5, ⟨5, "e", false⟩, ⟨2025, 1, 1⟩, false⟩], [], [],
      [⟨1, "bad", "approve_shifts", "daily", some 0, none, none, some 50, none, none,
        true, none⟩,
       ⟨2, "good", "approve_leaves", "daily", some 0, none, none, some 60, none, none,
        true, none⟩]⟩
    []
    [⟨2, "good", "approve_leaves", "daily", some 0, none, none, some 60, none, none,
      true, none⟩]
    ⟨1, "bad", "approve_shifts", "daily", some 0, none, none, some 50, none, none,
      true, none⟩
    rfl rfl (by decide)

/-! ## Claim C6: executor record-independence (fails on the code) -/

theorem approveShiftsLoop_abort (env : ExecEnv) (link : String) (s : Shift)
    (p2 : List Shift) (hfail : env.shiftFails s = true) :
    ∀ (p1 : List Shift) (db : DBState) (c : Nat),
      (∀ r ∈ p1, env.shiftFails r = false) →
      approveShiftsLoop env link (p1 ++ s :: p2) db c = .error () := by
  intro p1
  induction p1 with
  | nil =>
    intro db c _
    simp only [List.nil_append, approveShiftsLoop]
    rw [if_pos hfail]
  | cons r rest ih =>
    intro db c hok
    have hr : env.shiftFails r = false := hok r (List.mem_cons_self _ _)
    simp only [List.cons_append, approveShiftsLoop]
    rw [if_neg (by rw [hr]; exact Bool.false_ne_true)]
    exact ih _ _ (fun x hx => hok x (List.mem_cons_of_mem _ hx))

/-- C6 counterexample: an `approve_shifts` run over two qualifying pending
shifts where the collaborator raises on the first record only.  The run
aborts with an exception and returns no committed state at all, so the
second record — qualifying and itself failure-free — is not processed,
against the claim that a failure on one record must not prevent the
others. -/
theorem executor_independence_counterexample :
    executeAutomation
      ⟨0, fun s => s.id == 1, fun _ => false, fun _ _ _ shifts => (shifts, 0, 0)⟩
      ⟨1, "auto", "approve_shifts", "daily", some 0, none, none, none, none, none,
        true, none⟩
      ⟨[], [⟨1, 5, ⟨5, "a", false⟩, ⟨2025, 1, 1⟩, false⟩,
            ⟨2, 6, ⟨6, "b", false⟩, ⟨2025, 1, 2⟩, false⟩], [], [], []⟩ = .error () ∧
    (⟨0, fun s => s.id == 1, fun _ => false, fun _ _ _ shifts => (shifts, 0, 0)⟩
        : ExecEnv).shiftFails ⟨2, 6, ⟨6, "b", false⟩, ⟨2025, 1, 2⟩, false⟩ = false ∧
    (⟨2, 6, ⟨6, "b", false⟩, ⟨2025, 1, 2⟩, false⟩ : Shift).approved = false :=
  ⟨rfl, rfl, rfl⟩

theorem approveLeavesLoop_abort (env : ExecEnv) (link : String) (lv : Leave)
    (q2 : List Leave) (hfail : env.leaveFails lv = true) :
    ∀ (q1 : List Leave) (db : DBState) (c : Nat),
      (∀ r ∈ q1, env.leaveFails r = false) →
      approveLeavesLoop env link (q1 ++ lv :: q2) db c = .error () := by
  intro q1
  induction q1 with
  | nil =>
    intro db c _
    simp only [List.nil_append, approveLeavesLoop]
    rw [if_pos hfail]
  | cons r rest ih =>
    intro db c hok
    have hr : env.leaveFails r = false := hok r (List.mem_cons_self _ _)
    simp only [List.cons_append, approveLeavesLoop]
    rw [if_neg (by rw [hr]; exact Bool.false_ne_true)]
    exact ih _ _ (fun x hx => hok x (List.mem_cons_of_mem _ hx))

theorem createNotification_leaves (r : Nat) (m : String) (l : Option String)
    (db : DBState) : (createNotification r m l db).leaves = db.leaves := by
  unfold createNotification
  split <;> rfl

theorem clearRequestNotifications_leaves (m : String) (l : Option String)
    (db : DBState) : (clearRequestNotifications m l db).leaves = db.leaves := by
  unfold clearRequestNotifications
  split <;> rfl

theorem notifyEmployee_leaves (e : Nat) (m : String) (l : Option String)
    (db : DBState) : (notifyEmployee e m l db).leaves = db.leaves := by
  unfold notifyEmployee
  split
  · rfl
  · exact createNotification_leaves _ _ _ _

theorem setShiftApproved_leaves (i : Nat) (db : DBState) :
    (setShiftApproved i db).leaves = db.leaves := rfl

theorem approveShiftsLoop_no_fail (env : ExecEnv) (link : String) :
    ∀ (ps : List Shift) (db : DBState) (c : Nat),
      (∀ r ∈ ps, env.shiftFails r = false) →
      ∃ db1 c1, approveShiftsLoop env link ps db c = .ok (db1, c1) ∧
        db1.leaves = db.leaves := by
  intro ps
  induction ps with
  | nil => intro db c _; exact ⟨db, c, rfl, rfl⟩
  | cons s rest ih =>
    intro db c h
    have hs : env.shiftFails s = false := h s (List.mem_cons_self _ _)
    simp only [approveShiftsLoop]
    rw [if_neg (by rw [hs]; exact Bool.false_ne_true)]
    obtain ⟨db1, c1, hloop, hlv⟩ := ih _ (c + 1) (fun x hx => h x (List.mem_cons_of_mem _ hx))
    refine ⟨db1, c1, hloop, ?_⟩
    rw [hlv, notifyEmployee_leaves, clearRequestNotifications_leaves, setShiftApproved_leaves]

/-- C6 (amended): the executor processes qualifying records sequentially
with no per-record exception handling, in both record loops.  If an
`approve_shifts`/`approve_all` run raises on a pending shift whose
predecessors in the pending list all succeed, or an `approve_leaves` run
raises on a pending leave likewise, or an `approve_all` run whose shift
phase is failure-free raises on a pending leave likewise, then the whole
run aborts with the exception and no committed state exists — the
remaining qualifying records are only processed when the Poller retries
the whole rule. -/
theorem executor_aborts_on_record_failure (env : ExecEnv) (a : ApprovalAutomation)
    (db : DBState) :
    (∀ (p1 p2 : List Shift) (s : Shift),
      (a.automation_type = "approve_shifts" ∨ a.automation_type = "approve_all") →
      db.shifts.filter (fun x => !x.approved) = p1 ++ s :: p2 →
      (∀ r ∈ p1, env.shiftFails r = false) →
      env.shiftFails s = true →
      executeAutomation env a db = .error ()) ∧
    (∀ (q1 q2 : List Leave) (lv : Leave),
      a.automation_type = "approve_leaves" →
      db.leaves.filter (fun x => !x.approved) = q1 ++ lv :: q2 →
      (∀ r ∈ q1, env.leaveFails r = false) →
      env.leaveFails lv = true →
      executeAutomation env a db = .error ()) ∧
    (∀ (q1 q2 : List Leave) (lv : Leave),
      a.automation_type = "approve_all" →
      (∀ r ∈ db.shifts.filter (fun x => !x.approved), env.shiftFails r = false) →
      db.leaves.filter (fun x => !x.approved) = q1 ++ lv :: q2 →
      (∀ r ∈ q1, env.leaveFails r = false) →
      env.leaveFails lv = true →
      executeAutomation env a db = .error ()) := by
  refine ⟨?_, ?_, ?_⟩
  · intro p1 p2 s hty hpend hok hfail
    simp only [executeAutomation]
    rw [if_pos hty, hpend, approveShiftsLoop_abort env _ s p2 hfail p1 db 0 hok]
  · intro q1 q2 lv hty hpend hok hfail
    have hns : ¬(a.automation_type = "approve_shifts" ∨ a.automation_type = "approve_all") := by
      rw [hty]; decide
    simp only [executeAutomation]
    rw [if_neg hns]
    dsimp only
    rw [if_pos (Or.inl hty), hpend, approveLeavesLoop_abort env _ lv q2 hfail q1 db 0 hok]
  · intro q1 q2 lv hty hsok hpend hok hfail
    have hs : a.automation_type = "approve_shifts" ∨ a.automation_type = "approve_all" :=
      Or.inr hty
    obtain ⟨db1, c1, hloop, hlv⟩ :=
      approveShiftsLoop_no_fail env urlForShiftRequestsOverview
        (db.shifts.filter (fun x => !x.approved)) db 0 hsok
    simp only [executeAutomation]
    rw [if_pos hs, hloop]
    dsimp only
    rw [if_pos (Or.inr hty), hlv, hpend,
      approveLeavesLoop_abort env _ lv q2 hfail q1 db1 0 hok]

theorem executor_aborts_on_record_failure_witness :
    executeAutomation
      ⟨0, fun s => s.id == 9, fun _ => false, fun _ _ _ shifts => (shifts, 0, 0)⟩
      ⟨3, "w", "approve_shifts", "daily", some 0, none, none, none, none, none, true, none⟩
      ⟨[], [⟨8, 5, ⟨5, "a", false⟩, ⟨2025, 2, 1⟩, false⟩,
            ⟨9, 6, ⟨6, "b", false⟩, ⟨2025, 2, 2⟩, false⟩], [], [], []⟩ = .error () ∧
    executeAutomation
      ⟨0, fun _ => false, fun l => l.id == 21, fun _ _ _ shifts => (shifts, 0, 0)⟩
      ⟨4, "v", "approve_all", "daily", some 0, none, none, none, none, none, true, none⟩
      ⟨[], [⟨8, 5, ⟨5, "a", false⟩, ⟨2025, 2, 1⟩, false⟩],
           [⟨21, 6, ⟨6, "b", false⟩, "Urlaub", ⟨2025, 3, 1⟩, ⟨2025, 3, 2⟩, false⟩,
            ⟨22, 7, ⟨7, "c", false⟩, "Urlaub", ⟨2025, 3, 3⟩, ⟨2025, 3, 4⟩, false⟩],
           [], []⟩ = .error () :=
  ⟨(executor_aborts_on_record_failure
      ⟨0, fun s => s.id == 9, fun _ => false, fun _ _ _ shifts => (shifts, 0, 0)⟩
      ⟨3, "w", "approve_shifts", "daily", some 0, none, none, none, none, none, true, none⟩
      ⟨[], [⟨8, 5, ⟨5, "a", false⟩, ⟨2025, 2, 1⟩, false⟩,
            ⟨9, 6, ⟨6, "b", false⟩, ⟨2025, 2, 2⟩, false⟩], [], [], []⟩).1
      [⟨8, 5, ⟨5, "a", false⟩, ⟨2025, 2, 1⟩, false⟩] []
      ⟨9, 6, ⟨6, "b", false⟩, ⟨2025, 2, 2⟩, false⟩
      (Or.inl rfl) rfl (by decide) rfl,
    (executor_aborts_on_record_failure
      ⟨0, fun _ => false, fun l => l.id == 21, fun _ _ _ shifts => (shifts, 0, 0)⟩
      ⟨4, "v", "approve_all", "daily", some 0, none, none, none, none, none, true, none⟩
      ⟨[], [⟨8, 5, ⟨5, "a", false⟩, ⟨2025, 2, 1⟩, false⟩],
           [⟨21, 6, ⟨6, "b", false⟩, "Urlaub", ⟨2025, 3, 1⟩, ⟨2025, 3, 2⟩, false⟩,
            ⟨22, 7, ⟨7, "c", false⟩, "Urlaub", ⟨2025, 3, 3⟩, ⟨2025, 3, 4⟩, false⟩],
           [], []⟩).2.2
      []
      [⟨22, 7, ⟨7, "c", false⟩, "Urlaub", ⟨2025, 3, 3⟩, ⟨2025, 3, 4⟩, false⟩]
      ⟨21, 6, ⟨6, "b", false⟩, "Urlaub", ⟨2025, 3, 1⟩, ⟨2025, 3, 2⟩, false⟩
      rfl (by decide) rfl (by decide) rfl⟩

/-! ## Claim C7: the activation toggle (the claim overstates recomputation) -/

/-- C7 counterexample: an inactive `daily` rule that still has
`next_run = some 5` is reactivated at `now` one week into the epoch; the
claim says reactivation recomputes `next_run` from `now + 1s`, but the code
keeps the stale value, which differs from the recomputed one. -/
theorem toggle_no_recompute_counterexample :
    (toggleAutomatedApproval (7 * 86400)
        ⟨3, "d", "approve_shifts", "daily", some 32400, none, none, some 5, none, none,
          false, none⟩).next_run ≠
      calculateNextRun (7 * 86400) "daily" (some 32400) none (some (7 * 86400 + 1)) := by
  decide

/-- C7 (amended): toggling an inactive rule: a `once` rule with no
`next_run` left is rejected and stays inactive; any other rule becomes
active, and `next_run` is recomputed from `now + 1s` only when it is
absent — a rule reactivated with a `next_run` still present keeps it
unchanged. -/
theorem toggle_reactivation_behaviour (now : Nat) (a : ApprovalAutomation)
    (hin : a.is_active = false) :
    ((a.schedule_type = "once" ∧ a.next_run = none) →
      (toggleAutomatedApproval now a).is_active = false) ∧
    (a.schedule_type ≠ "once" → a.next_run = none →
      toggleAutomatedApproval now a =
        { a with is_active := true, next_run := calculateNextRun now a.schedule_type a.run_time a.days_of_week (some (now + 1)) }) ∧
    (∀ t, a.next_run = some t →
      toggleAutomatedApproval now a = { a with is_active := true }) := by
  refine ⟨?_, ?_, ?_⟩
  · rintro ⟨h1, h2⟩
    simp [toggleAutomatedApproval, hin, h1, h2]
  · intro h1 h2
    simp [toggleAutomatedApproval, hin, h1, h2]
  · intro t ht
    simp [toggleAutomatedApproval, hin, ht]

theorem toggle_reactivation_behaviour_witness :
    ((⟨4, "t", "approve_all", "once", some 60, none, none, none, none, none, false, none⟩
        : ApprovalAutomation).is_active = false) ∧
    ((⟨4, "t", "approve_all", "once", some 60, none, none, none, none, none, false, none⟩
        : ApprovalAutomation).schedule_type = "once" ∧
      (⟨4, "t", "approve_all", "once", some 60, none, none, none, none, none, false, none⟩
        : ApprovalAutomation).next_run = none →
      (toggleAutomatedApproval 500
        ⟨4, "t", "approve_all", "once", some 60, none, none, none, none, none, false,
          none⟩).is_active = false) :=
  ⟨rfl,
    (toggle_reactivation_behaviour 500
      ⟨4, "t", "approve_all", "once", some 60, none, none, none, none, none, false, none⟩
      rfl).1⟩

/-! ## Claim C8: notification clearing (the claim overstates exactness) -/

/-- C8 counterexample: clearing with message `"m"` and no link deletes a
notification whose link is `some "x"` — a notification with a *different*
link than the given pair, which the claim says must stay unchanged. -/
theorem clear_notifications_counterexample :
    ¬ (∀ n ∈ (⟨[], [], [], [⟨1, "m", some "x"⟩], []⟩ : DBState).notifications,
        (n.message ≠ "m" ∨ n.link ≠ none) →
        n ∈ (clearRequestNotifications "m" none
          ⟨[], [], [], [⟨1, "m", some "x"⟩], []⟩).notifications) := by
  decide

/-- C8 (amended): for a non-empty message: with a link given, the clear
operation keeps exactly the notifications not matching both the message and
the link; with no link given it deletes every notification carrying the
message, whatever its link.  (With an empty message it deletes nothing.) -/
theorem clear_notifications_exact (m l : String) (db : DBState) (hm : m ≠ "") :
    (∀ n, n ∈ (clearRequestNotifications m (some l) db).notifications ↔
      (n ∈ db.notifications ∧ ¬(n.message = m ∧ n.link = some l))) ∧
    (∀ n, n ∈ (clearRequestNotifications m none db).notifications ↔
      (n ∈ db.notifications ∧ n.message ≠ m)) := by
  unfold clearRequestNotifications
  rw [if_neg hm, if_neg hm]
  constructor
  · intro n
    simp only [List.mem_filter, Bool.not_eq_eq_eq_not, Bool.not_true, Bool.and_eq_false_imp]
    constructor
    · rintro ⟨h1, h2⟩
      refine ⟨h1, ?_⟩
      rintro ⟨hm1, hl1⟩
      simp [hm1, hl1] at h2
    · rintro ⟨h1, h2⟩
      refine ⟨h1, ?_⟩
      by_cases hm1 : n.message = m
      · by_cases hl1 : n.link = some l
        · exact absurd ⟨hm1, hl1⟩ h2
        · simp [hm1, hl1]
      · simp [hm1]
  · intro n
    simp only [List.mem_filter]
    constructor
    · rintro ⟨h1, h2⟩
      refine ⟨h1, ?_⟩
      intro hm1
      simp [hm1] at h2
    · rintro ⟨h1, h2⟩
      refine ⟨h1, ?_⟩
      simp [h2]

theorem clear_notifications_exact_witness :
    (("x" : String) ≠ "") ∧
    ((⟨1, "x", some "u"⟩ : Notification) ∈ (clearRequestNotifications "x" (some "u")
        ⟨[], [], [], [⟨1, "x", some "u"⟩, ⟨2, "y", none⟩], []⟩).notifications ↔
      ((⟨1, "x", some "u"⟩ : Notification) ∈
          (⟨[], [], [], [⟨1, "x", some "u"⟩, ⟨2, "y", none⟩], []⟩ : DBState).notifications ∧
        ¬((⟨1, "x", some "u"⟩ : Notification).message = "x" ∧
          (⟨1, "x", some "u"⟩ : Notification).link = some "u"))) :=
  ⟨by decide,
    (clear_notifications_exact "x" "u"
      ⟨[], [], [], [⟨1, "x", some "u"⟩, ⟨2, "y", none⟩], []⟩ (by decide)).1
      ⟨1, "x", some "u"⟩⟩

end Jester
